import Mathlib

/-!
Verification of the generic data-shape-to-UI transformer of the Microburbs
Development Explorer: the Flattener (`flatten`), the Sectionizer
(`collectSections`), the value classifier (`classifyValue`), the key
prettifier (`prettifyKey`), the number formatter (`formatNumber`), and the
summary-card derivation (`summaryCards`), together with the fixed demo
fixture (`demoDoc`).

JSON-decoded values are embedded as the mutual inductive family
`JVal`/`JArr`/`JObj`: a value is a number, boolean, string, null, undefined,
array, or object; objects are ordered association lists, mirroring the
insertion-order iteration of `Object.entries`. JavaScript numbers are
embedded as `JNum`: either a finite rational or one of NaN, +Infinity,
-Infinity. Strings are Lean `String`s; `String.length` stands in for the
JavaScript `length` property (the two agree on all strings appearing here).
-/

/-- A JavaScript number: a finite value (embedded as an exact rational, the
value denoted by the numeric literal in the source) or NaN or an infinity. -/
inductive JNum : Type where
  | fin (val : ℚ)
  | nan
  | posInf
  | negInf
deriving DecidableEq, Repr

mutual

/-- A JSON-decodable JavaScript value, plus `undefined`. -/
inductive JVal : Type where
  | num (n : JNum)
  | bool (b : Bool)
  | str (s : String)
  | null
  | undef
  | arr (elems : JArr)
  | obj (fields : JObj)

/-- An array of values. -/
inductive JArr : Type where
  | nil
  | cons (v : JVal) (rest : JArr)

/-- An object: an ordered list of key/value fields. -/
inductive JObj : Type where
  | nil
  | cons (k : String) (v : JVal) (rest : JObj)

end

/-- Builds an array from a Lean list. -/
def JArr.ofList : List JVal → JArr
  | [] => .nil
  | v :: rest => .cons v (JArr.ofList rest)

/-- Builds an object from a Lean list of fields. -/
def JObj.ofList : List (String × JVal) → JObj
  | [] => .nil
  | (k, v) :: rest => .cons k v (JObj.ofList rest)

/-- Number of elements of an array. -/
def JArr.length : JArr → Nat
  | .nil => 0
  | .cons _ rest => rest.length + 1

/-- Rational given literally by numerator and denominator, used to write the
non-integral numeric literals of the source (`10.5`, `28.4`, `51.2`) in a
form the kernel evaluates. -/
def ratLit (n : Int) (d : Nat) (hd : d ≠ 0) (hr : n.natAbs.Coprime d) : ℚ :=
  ⟨n, d, hd, hr⟩

/-- The literal `10.5` of the demo fixture. -/
def q10_5 : ℚ := ratLit 21 2 (by decide) (by decide)

/-- The literal `28.4` of the demo fixture. -/
def q28_4 : ℚ := ratLit 142 5 (by decide) (by decide)

/-- The literal `51.2` of the demo fixture. -/
def q51_2 : ℚ := ratLit 256 5 (by decide) (by decide)

/-! ## Flattener

`flatten(obj, prefix = '', out = {})`: for each entry, a truthy non-array
object recurses with the path extended by `.key`; any other value is stored
in `out` under the accumulated dotted path. `out` is a JavaScript object, so
storing under an existing key overwrites in place (keeping the original
position) while a fresh key is appended; `setKey` embeds that assignment on
an ordered association list. -/

/-- Dotted path extension: `prefix ? prefix + '.' + k : k`. -/
def mkKey (pre k : String) : String := if pre = "" then k else pre ++ "." ++ k

/-- JavaScript object assignment `out[key] = v` on an ordered association
list: overwrite in place if the key exists, append otherwise. -/
def setKey (out : List (String × JVal)) (key : String) (v : JVal) :
    List (String × JVal) :=
  if out.any (fun p => p.1 = key) then
    out.map (fun p => if p.1 = key then (key, v) else p)
  else out ++ [(key, v)]

mutual

/-- The entry loop of `flatten`: `Object.entries(obj).forEach(...)`. -/
def flattenObj : JObj → String → List (String × JVal) → List (String × JVal)
  | .nil, _, out => out
  | .cons k v rest, pre, out => flattenObj rest pre (flattenEntry v (mkKey pre k) out)

/-- One entry of the loop: `if (v && typeof v === 'object' && !Array.isArray(v))
flatten(v, key, out); else out[key] = v`. -/
def flattenEntry : JVal → String → List (String × JVal) → List (String × JVal)
  | .obj fields, key, out => flattenObj fields key out
  | v, key, out => setKey out key v

end

/-- `flatten(obj)`: the `none` case embeds the `if (!obj) return out` guard
for a `null` or `undefined` document. -/
def flatten : Option JObj → List (String × JVal)
  | none => []
  | some fields => flattenObj fields "" []

/-! ## Key prettifier -/

/-- `String.split(/[._]/g)` on a character list: split at every `.` or `_`,
keeping empty pieces. -/
def splitChars (p : Char → Bool) : List Char → List (List Char)
  | [] => [[]]
  | c :: rest =>
    let r := splitChars p rest
    if p c then [] :: r
    else
      match r with
      | t :: ts => (c :: t) :: ts
      | [] => [[c]]

/-- `x.replace(/([a-z])([A-Z])/g, '$1 $2')`: left-to-right, non-overlapping;
after a replacement the scan resumes after the matched pair. -/
def camelSplit : List Char → List Char
  | [] => []
  | [a] => [a]
  | a :: b :: rest =>
    if a.isLower && b.isUpper then a :: ' ' :: b :: camelSplit rest
    else a :: camelSplit (b :: rest)

/-- `x.charAt(0).toUpperCase() + x.slice(1)` (identity on the empty string). -/
def capitalizeFirst (s : String) : String :=
  match s.data with
  | [] => ""
  | c :: rest => String.mk (c.toUpper :: rest)

/-- `prettifyKey`: split on `.` and `_`, insert a space at each
lowercase-uppercase boundary, capitalize each token's first character, join
with single spaces. -/
def prettifyKey (k : String) : String :=
  String.intercalate " "
    ((splitChars (fun c => c = '.' || c = '_') k.data).map
      (fun t => capitalizeFirst (String.mk (camelSplit t))))

/-! ## Value classifier -/

/-- The four display kinds returned by `classifyValue`. -/
inductive ValueKind : Type where
  | num
  | bool
  | short
  | json
deriving DecidableEq, Repr

/-- `classifyValue`: number → `num`, boolean → `bool`, non-empty string
shorter than 120 → `short`, everything else → `json`. -/
def classifyValue : JVal → ValueKind
  | .num _ => .num
  | .bool _ => .bool
  | .str s => if 0 < s.length && s.length < 120 then .short else .json
  | _ => .json

/-! ## Number formatter

`String(n)` on a number in the plain-decimal regime is modelled as the exact
decimal expansion of the embedded rational (sign, integer part, then the
fractional digits down to the last non-zero one, bounded by a fuel that the
values in this development never exhaust); `NaN`, `Infinity` and `-Infinity`
print their literal names. `new Intl.NumberFormat().format(n)` under the
default `en-US` locale is modelled as sign, comma-grouped integer digits,
and at most three fraction digits rounded half away from zero. -/

/-- Decimal digits of the fractional part `r / d` (`0 < r < d`), stopping at
the last non-zero digit or when the fuel runs out. -/
def fracDigits : Nat → Nat → Nat → String
  | _, _, 0 => ""
  | r, d, fuel + 1 =>
    let r10 := r * 10
    toString (r10 / d) ++ (if r10 % d = 0 then "" else fracDigits (r10 % d) d fuel)

/-- Decimal rendering of the non-negative rational `num / den`. -/
def posRatToString (num den : Nat) : String :=
  toString (num / den) ++
    (if num % den = 0 then "" else "." ++ fracDigits (num % den) den 40)

/-- `String(n)` for a JavaScript number. -/
def jsNumToString : JNum → String
  | .nan => "NaN"
  | .posInf => "Infinity"
  | .negInf => "-Infinity"
  | .fin q =>
    if q < 0 then "-" ++ posRatToString (-q.num).toNat q.den
    else posRatToString q.num.toNat q.den

/-- Comma grouping of a reversed digit list: a comma after every third digit. -/
def group3 : List Char → List Char
  | d1 :: d2 :: d3 :: d4 :: rest => d1 :: d2 :: d3 :: ',' :: group3 (d4 :: rest)
  | l => l

/-- Inserts thousands separators into a digit string. -/
def groupDigits (s : String) : String := String.mk (group3 s.data.reverse).reverse

/-- The at-most-three rounded fraction digits, trailing zeros stripped. -/
def frac3 (fr : Nat) : String :=
  String.mk
    ((([fr / 100, fr / 10 % 10, fr % 10].map Nat.digitChar).reverse.dropWhile
      (fun c => c = '0')).reverse)

/-- `new Intl.NumberFormat().format(q)` for a finite value, default locale. -/
def groupedFormat (q : ℚ) : String :=
  let m := (q.num.natAbs * 1000 * 2 + q.den) / (2 * q.den)
  (if q < 0 then "-" else "") ++ groupDigits (toString (m / 1000)) ++
    (if m % 1000 = 0 then "" else "." ++ frac3 (m % 1000))

/-- `formatNumber`: non-finite numbers print as `String(n)`; finite numbers
of absolute value at least 1000 are locale-grouped; the rest print plainly. -/
def formatNumber : JNum → String
  | .nan => jsNumToString .nan
  | .posInf => jsNumToString .posInf
  | .negInf => jsNumToString .negInf
  | .fin q => if 1000 ≤ |q| then groupedFormat q else jsNumToString (.fin q)

/-! ## Sectionizer -/

/-- One display row: raw key and raw value. -/
structure Row : Type where
  k : String
  v : JVal

/-- One titled section of rows. -/
structure Section : Type where
  title : String
  path : String
  rows : List Row

/-- Rows of an array section: element `i` (0-based) becomes row `#(i+1)`. -/
def idxRowsFrom : JArr → Nat → List Row
  | .nil, _ => []
  | .cons v rest, i => ⟨"#" ++ toString (i + 1), v⟩ :: idxRowsFrom rest (i + 1)

/-- `v.map((item, i) => ({ k: '#' + (i+1), v: item }))`. -/
def idxRows (elems : JArr) : List Row := idxRowsFrom elems 0

/-- The final `unshift`: if any scalars were collected at this level, prepend
one section holding them, titled `basePath || 'Overview'`. -/
def withScalars (basePath : String) (p : List Section × List Row) : List Section :=
  if p.2.isEmpty then p.1
  else ⟨if basePath = "" then "Overview" else basePath, basePath, p.2⟩ :: p.1

mutual

/-- The entry loop of `collectSections`: accumulates, in source order, the
sections pushed by container entries and the scalar rows. -/
def collectEntries : JObj → String → List Section × List Row
  | .nil, _ => ([], [])
  | .cons k v rest, basePath =>
    let head := collectEntry k v basePath
    let tail := collectEntries rest basePath
    (head.1 ++ tail.1, head.2 ++ tail.2)

/-- One entry: an array pushes one section of indexed rows; a non-array
object recurses and splices the returned sections; anything else is a scalar
row. -/
def collectEntry : String → JVal → String → List Section × List Row
  | k, .arr elems, basePath => ([⟨k, mkKey basePath k, idxRows elems⟩], [])
  | k, .obj fields, basePath =>
    let path := mkKey basePath k
    (withScalars path (collectEntries fields path), [])
  | k, v, _ => ([], [⟨k, v⟩])

end

/-- `collectSections(obj, basePath = '')`: the `obj || {}` guard maps a
`null` or `undefined` document to the empty object. -/
def collectSections (obj : Option JObj) (basePath : String) : List Section :=
  withScalars basePath (collectEntries (obj.getD .nil) basePath)

/-! ## Summary cards -/

/-- One headline card: prettified label, formatted value, optional hint. -/
structure SummaryCard : Type where
  label : String
  value : String
  hint : Option String
deriving DecidableEq, Repr

/-- The numeric flat entries, in document order:
`entries(flat).filter(([, v]) => typeof v === 'number')`. -/
def numEntries (flat : List (String × JVal)) : List (String × JNum) :=
  flat.filterMap fun p =>
    match p.2 with
    | .num n => some (p.1, n)
    | _ => none

/-- The short-text flat entries, in document order:
`entries(flat).filter(([, v]) => typeof v === 'string' && v.length < 80)`.
No non-emptiness requirement: the empty string qualifies. -/
def shortTextEntries (flat : List (String × JVal)) : List (String × String) :=
  flat.filterMap fun p =>
    match p.2 with
    | .str s => if s.length < 80 then some (p.1, s) else none
    | _ => none

/-- Strict `>` on JavaScript numbers, false whenever NaN is involved: the
sign of the comparator `(a, b) => b[1] - a[1]` of the source. -/
def JNum.gtb : JNum → JNum → Bool
  | .nan, _ => false
  | _, .nan => false
  | .posInf, .posInf => false
  | .posInf, _ => true
  | .negInf, _ => false
  | .fin _, .posInf => false
  | .fin _, .negInf => true
  | .fin a, .fin b => decide (b < a)

/-- Stable insertion into a descending list: the new, originally-earlier
entry passes strictly greater entries and stops at the first equal-or-smaller
one. -/
def insertDescBy (x : String × JNum) : List (String × JNum) → List (String × JNum)
  | [] => [x]
  | y :: ys => if JNum.gtb y.2 x.2 then y :: insertDescBy x ys else x :: y :: ys

/-- `.sort((a, b) => b[1] - a[1])`: JavaScript `Array.prototype.sort` is
stable, so with this comparator it is the stable descending sort by value. -/
def sortDescBy : List (String × JNum) → List (String × JNum)
  | [] => []
  | x :: xs => insertDescBy x (sortDescBy xs)

/-- The `summaryCards` derivation: on a truthy document, flatten, take the
top three numeric entries by value (prettified, formatted), then the first
two short-text entries (prettified, hinted `"text field"`). -/
def summaryCards (raw : Option JObj) : List SummaryCard :=
  match raw with
  | none => []
  | some r =>
    let flat := flatten (some r)
    let topNums := ((sortDescBy (numEntries flat)).take 3).map
      (fun p => ⟨prettifyKey p.1, formatNumber p.2, none⟩)
    let topText := ((shortTextEntries flat).take 2).map
      (fun p => ⟨prettifyKey p.1, p.2, some "text field"⟩)
    topNums ++ topText

/-! ## The demo fixture of `loadDemo` -/

/-- The fixed demo document returned by `loadDemo`. -/
def demoDoc : JObj := .ofList
  [("address", .str "123 George St, Sydney NSW"),
   ("zoning", .obj (.ofList
     [("code", .str "B8"),
      ("name", .str "Metropolitan Centre"),
      ("floorSpaceRatio", .num (.fin q10_5)),
      ("maxHeightMeters", .num (.fin 235))])),
   ("lot", .obj (.ofList
     [("areaSqm", .num (.fin 1450)),
      ("frontageM", .num (.fin q28_4)),
      ("depthM", .num (.fin q51_2)),
      ("corner", .bool true)])),
   ("overlays", .arr (.ofList
     [.obj (.ofList [("name", .str "Heritage Conservation Area"), ("applies", .bool true)]),
      .obj (.ofList [("name", .str "Flood Planning"), ("applies", .bool false)])])),
   ("nearby", .obj (.ofList
     [("schoolsWithin1km", .num (.fin 4)),
      ("trainStationsWithin1km", .num (.fin 1)),
      ("walkScore", .num (.fin 98)),
      ("transitScore", .num (.fin 100))])),
   ("council", .obj (.ofList
     [("name", .str "City of Sydney"),
      ("devAppsLast12m", .num (.fin 712)),
      ("medianProcessingDays", .num (.fin 37))]))]

/-! ## Counting and path devices for the flatten/sectionize relationship

`flatPairs` collects, in traversal order, one (dotted path, value) pair per
leaf of the document tree, where a leaf is any value that is not a plain
object; it is the spec's description of the Flattener's output, stated
without the object-assignment overwrite of `setKey`. `leafPaths` is its path
part: the spec's "leaf paths of the raw document's tree reachable without
crossing an array boundary", arrays kept as opaque leaves under their own
key. -/

/-- Is the value an array? -/
def isArrB : JVal → Bool
  | .arr _ => true
  | _ => false

/-- Is the value a plain (non-array) object? -/
def isObjB : JVal → Bool
  | .obj _ => true
  | _ => false

/-- Total number of rows across a list of sections. -/
def totalRows (secs : List Section) : Nat := (secs.map (fun s => s.rows.length)).sum

/-- Number of flat entries whose stored value is not an array. -/
def nonArrayCount (flat : List (String × JVal)) : Nat :=
  (flat.filter (fun p => !isArrB p.2)).length

mutual

/-- Total element count of the arrays reachable from the document without
crossing another array: each reachable array contributes its length and is
not recursed into. -/
def shallowArrayElems : JObj → Nat
  | .nil => 0
  | .cons _ v rest => shallowArrayElemsVal v + shallowArrayElems rest

/-- Shallow array-element count of one value. -/
def shallowArrayElemsVal : JVal → Nat
  | .arr elems => elems.length
  | .obj fields => shallowArrayElems fields
  | _ => 0

end

mutual

/-- The leaf (dotted path, value) pairs of a document in traversal order:
plain objects are recursed into, everything else (scalars, null, undefined
and arrays) is a leaf under its accumulated path. -/
def flatPairs : JObj → String → List (String × JVal)
  | .nil, _ => []
  | .cons k v rest, pre => flatPairsVal v (mkKey pre k) ++ flatPairs rest pre

/-- Leaf pairs contributed by one value. -/
def flatPairsVal : JVal → String → List (String × JVal)
  | .obj fields, key => flatPairs fields key
  | v, key => [(key, v)]

end

mutual

/-- The leaf paths of a document's tree reachable without crossing an array
boundary, arrays treated as opaque leaves stored under their own key. -/
def leafPaths : JObj → String → List String
  | .nil, _ => []
  | .cons k v rest, pre => leafPathsVal v (mkKey pre k) ++ leafPaths rest pre

/-- Leaf paths contributed by one value. -/
def leafPathsVal : JVal → String → List String
  | .obj fields, key => leafPaths fields key
  | _, key => [key]

end

/-- A well-formed JSON document (distinct keys at each level) on which two
different leaves reach the same dotted path `"a.b"`: the top-level key
`"a.b"` and the field `b` of the nested object `a`. -/
def collideDoc : JObj := .ofList
  [("a.b", .num (.fin 1)),
   ("a", .obj (.ofList [("b", .num (.fin 2))]))]

/-! ## Supporting lemmas -/

theorem q10_5_eq : q10_5 = 10.5 := by
  rw [q10_5, ratLit, Rat.mk'_eq_divInt, Rat.divInt_eq_div]; norm_num

theorem q28_4_eq : q28_4 = 28.4 := by
  rw [q28_4, ratLit, Rat.mk'_eq_divInt, Rat.divInt_eq_div]; norm_num

theorem q51_2_eq : q51_2 = 51.2 := by
  rw [q51_2, ratLit, Rat.mk'_eq_divInt, Rat.divInt_eq_div]; norm_num

/-- The recursive call site `sections.push(...collectSections(v, path))` of
the source is reproduced definitionally by `collectEntry` on an object. -/
theorem collectEntry_obj (k : String) (fields : JObj) (basePath : String) :
    collectEntry k (.obj fields) basePath =
      (collectSections (some fields) (mkKey basePath k), []) := rfl

mutual

theorem flatPairs_keys : (fs : JObj) → (pre : String) →
    (flatPairs fs pre).map Prod.fst = leafPaths fs pre
  | .nil, _ => rfl
  | .cons k v rest, pre => by
    rw [flatPairs, leafPaths, List.map_append, flatPairs_keys rest pre,
      flatPairsVal_keys v (mkKey pre k)]

theorem flatPairsVal_keys : (v : JVal) → (key : String) →
    (flatPairsVal v key).map Prod.fst = leafPathsVal v key
  | .obj fields, key => flatPairs_keys fields key
  | .num _, _ => rfl
  | .bool _, _ => rfl
  | .str _, _ => rfl
  | .null, _ => rfl
  | .undef, _ => rfl
  | .arr _, _ => rfl

end

theorem idxRowsFrom_length : (elems : JArr) → (i : Nat) →
    (idxRowsFrom elems i).length = elems.length
  | .nil, _ => rfl
  | .cons v rest, i => by
    rw [idxRowsFrom, JArr.length, List.length_cons, idxRowsFrom_length rest (i + 1)]

theorem totalRows_cons (s : Section) (l : List Section) :
    totalRows (s :: l) = s.rows.length + totalRows l := by
  simp [totalRows]

theorem totalRows_append (l1 l2 : List Section) :
    totalRows (l1 ++ l2) = totalRows l1 + totalRows l2 := by
  simp [totalRows]

theorem nonArrayCount_append (l1 l2 : List (String × JVal)) :
    nonArrayCount (l1 ++ l2) = nonArrayCount l1 + nonArrayCount l2 := by
  simp [nonArrayCount, List.filter_append]

theorem withScalars_totalRows (basePath : String) (p : List Section × List Row) :
    totalRows (withScalars basePath p) = totalRows p.1 + p.2.length := by
  rcases p with ⟨secs, scals⟩
  cases scals <;> simp [withScalars, totalRows_cons, Nat.add_comm]

mutual

theorem collectEntries_count : (fs : JObj) → (basePath : String) →
    totalRows (collectEntries fs basePath).1 + (collectEntries fs basePath).2.length =
      nonArrayCount (flatPairs fs basePath) + shallowArrayElems fs
  | .nil, _ => rfl
  | .cons k v rest, basePath => by
    have hv := collectEntry_count k v basePath
    have hr := collectEntries_count rest basePath
    simp only [collectEntries, flatPairs, shallowArrayElems, totalRows_append,
      nonArrayCount_append, List.length_append] at *
    omega

theorem collectEntry_count : (k : String) → (v : JVal) → (basePath : String) →
    totalRows (collectEntry k v basePath).1 + (collectEntry k v basePath).2.length =
      nonArrayCount (flatPairsVal v (mkKey basePath k)) + shallowArrayElemsVal v
  | _, .num _, _ => rfl
  | _, .bool _, _ => rfl
  | _, .str _, _ => rfl
  | _, .null, _ => rfl
  | _, .undef, _ => rfl
  | k, .arr elems, basePath => by
    simp [collectEntry, flatPairsVal, shallowArrayElemsVal, totalRows, idxRows,
      idxRowsFrom_length, nonArrayCount, isArrB]
  | k, .obj fields, basePath => by
    have h := collectEntries_count fields (mkKey basePath k)
    simp only [collectEntry, flatPairsVal, shallowArrayElemsVal,
      withScalars_totalRows, List.length_nil]
    omega

end

theorem collectSections_totalRows (fs : JObj) (basePath : String) :
    totalRows (collectSections (some fs) basePath) =
      nonArrayCount (flatPairs fs basePath) + shallowArrayElems fs := by
  rw [collectSections, Option.getD_some, withScalars_totalRows]
  exact collectEntries_count fs basePath

theorem setKey_fresh (out : List (String × JVal)) (key : String) (v : JVal)
    (h : key ∉ out.map Prod.fst) : setKey out key v = out ++ [(key, v)] := by
  rw [setKey, if_neg]
  simp only [List.any_eq_true, decide_eq_true_eq, not_exists, not_and]
  intro p hp hpk
  exact absurd (hpk ▸ List.mem_map_of_mem Prod.fst hp) h

theorem not_mem_of_nodup_append_singleton {A : List String} {x : String}
    (h : (A ++ [x]).Nodup) : x ∉ A := fun hx => by
  rcases List.nodup_append.mp h with ⟨-, -, hd⟩
  exact hd hx (List.mem_singleton_self x)

mutual

theorem flattenObj_append : (fs : JObj) → (pre : String) →
    (out : List (String × JVal)) →
    (out.map Prod.fst ++ (flatPairs fs pre).map Prod.fst).Nodup →
    flattenObj fs pre out = out ++ flatPairs fs pre
  | .nil, pre, out, _ => by simp [flattenObj, flatPairs]
  | .cons k v rest, pre, out, h => by
    have hsplit : ((out.map Prod.fst ++ (flatPairsVal v (mkKey pre k)).map Prod.fst) ++
        (flatPairs rest pre).map Prod.fst).Nodup := by
      simpa [flatPairs, List.append_assoc] using h
    have h1 : (out.map Prod.fst ++ (flatPairsVal v (mkKey pre k)).map Prod.fst).Nodup :=
      List.Nodup.sublist (List.sublist_append_left _ _) hsplit
    have h2 : ((out ++ flatPairsVal v (mkKey pre k)).map Prod.fst ++
        (flatPairs rest pre).map Prod.fst).Nodup := by
      simpa [List.map_append] using hsplit
    rw [flattenObj, flattenEntry_append v (mkKey pre k) out h1,
      flattenObj_append rest pre _ h2]
    simp [flatPairs, List.append_assoc]

theorem flattenEntry_append : (v : JVal) → (key : String) →
    (out : List (String × JVal)) →
    (out.map Prod.fst ++ (flatPairsVal v key).map Prod.fst).Nodup →
    flattenEntry v key out = out ++ flatPairsVal v key
  | .obj fields, key, out, h => flattenObj_append fields key out h
  | .num n, key, out, h =>
    setKey_fresh out key (.num n) (not_mem_of_nodup_append_singleton (by simpa using h))
  | .bool b, key, out, h =>
    setKey_fresh out key (.bool b) (not_mem_of_nodup_append_singleton (by simpa using h))
  | .str s, key, out, h =>
    setKey_fresh out key (.str s) (not_mem_of_nodup_append_singleton (by simpa using h))
  | .null, key, out, h =>
    setKey_fresh out key .null (not_mem_of_nodup_append_singleton (by simpa using h))
  | .undef, key, out, h =>
    setKey_fresh out key .undef (not_mem_of_nodup_append_singleton (by simpa using h))
  | .arr elems, key, out, h =>
    setKey_fresh out key (.arr elems) (not_mem_of_nodup_append_singleton (by simpa using h))

end

theorem flatten_eq_flatPairs (fs : JObj) (h : (leafPaths fs "").Nodup) :
    flatten (some fs) = flatPairs fs "" := by
  have := flattenObj_append fs "" []
    (by simpa [flatPairs_keys] using h)
  simpa [flatten] using this

theorem setKey_keys_mem (out : List (String × JVal)) (key : String) (v : JVal)
    (p : String) :
    p ∈ (setKey out key v).map Prod.fst ↔ p ∈ out.map Prod.fst ∨ p = key := by
  by_cases hc : out.any (fun q => q.1 = key) = true
  · rw [setKey, if_pos hc]
    have hkeys : (out.map (fun q => if q.1 = key then (key, v) else q)).map Prod.fst =
        out.map Prod.fst := by
      rw [List.map_map]
      refine List.map_congr_left ?_
      intro q _
      by_cases hk : q.1 = key <;> simp [hk, Function.comp]
    rw [hkeys]
    have hkmem : key ∈ out.map Prod.fst := by
      rcases (List.any_eq_true).mp hc with ⟨q, hq, hqk⟩
      exact (decide_eq_true_eq.mp hqk) ▸ List.mem_map_of_mem Prod.fst hq
    exact ⟨Or.inl, fun h => h.elim id (fun he => he ▸ hkmem)⟩
  · rw [setKey, if_neg hc]
    simp

mutual

theorem flattenObj_keys_mem : (fs : JObj) → (pre : String) →
    (out : List (String × JVal)) → (p : String) →
    (p ∈ (flattenObj fs pre out).map Prod.fst ↔
      p ∈ out.map Prod.fst ∨ p ∈ leafPaths fs pre)
  | .nil, pre, out, p => by simp [flattenObj, leafPaths]
  | .cons k v rest, pre, out, p => by
    rw [flattenObj, flattenObj_keys_mem rest pre _ p,
      flattenEntry_keys_mem v (mkKey pre k) out p]
    simp [leafPaths, List.mem_append, or_assoc]

theorem flattenEntry_keys_mem : (v : JVal) → (key : String) →
    (out : List (String × JVal)) → (p : String) →
    (p ∈ (flattenEntry v key out).map Prod.fst ↔
      p ∈ out.map Prod.fst ∨ p ∈ leafPathsVal v key)
  | .obj fields, key, out, p => flattenObj_keys_mem fields key out p
  | .num n, key, out, p => by
    simpa [leafPathsVal] using setKey_keys_mem out key (.num n) p
  | .bool b, key, out, p => by
    simpa [leafPathsVal] using setKey_keys_mem out key (.bool b) p
  | .str s, key, out, p => by
    simpa [leafPathsVal] using setKey_keys_mem out key (.str s) p
  | .null, key, out, p => by
    simpa [leafPathsVal] using setKey_keys_mem out key .null p
  | .undef, key, out, p => by
    simpa [leafPathsVal] using setKey_keys_mem out key .undef p
  | .arr elems, key, out, p => by
    simpa [leafPathsVal] using setKey_keys_mem out key (.arr elems) p

end

theorem setKey_all_not_obj (out : List (String × JVal)) (key : String) (v : JVal)
    (hv : isObjB v = false) (h : out.all (fun p => !isObjB p.2) = true) :
    (setKey out key v).all (fun p => !isObjB p.2) = true := by
  rw [setKey]
  split
  · simp only [List.all_eq_true] at h ⊢
    intro q hq
    rcases List.mem_map.mp hq with ⟨r, hr, hrq⟩
    by_cases hk : r.1 = key
    · simp only [hk, if_pos] at hrq
      simp [← hrq, hv]
    · simp only [hk, if_neg, not_false_eq_true] at hrq
      exact hrq ▸ h r hr
  · simp [List.all_append, h, hv]

mutual

theorem flattenObj_no_obj : (fs : JObj) → (pre : String) →
    (out : List (String × JVal)) →
    out.all (fun p => !isObjB p.2) = true →
    (flattenObj fs pre out).all (fun p => !isObjB p.2) = true
  | .nil, _, _, h => h
  | .cons k v rest, pre, out, h =>
    flattenObj_no_obj rest pre _ (flattenEntry_no_obj v (mkKey pre k) out h)

theorem flattenEntry_no_obj : (v : JVal) → (key : String) →
    (out : List (String × JVal)) →
    out.all (fun p => !isObjB p.2) = true →
    (flattenEntry v key out).all (fun p => !isObjB p.2) = true
  | .obj fields, key, out, h => flattenObj_no_obj fields key out h
  | .num n, key, out, h => setKey_all_not_obj out key (.num n) rfl h
  | .bool b, key, out, h => setKey_all_not_obj out key (.bool b) rfl h
  | .str s, key, out, h => setKey_all_not_obj out key (.str s) rfl h
  | .null, key, out, h => setKey_all_not_obj out key .null rfl h
  | .undef, key, out, h => setKey_all_not_obj out key .undef rfl h
  | .arr elems, key, out, h => setKey_all_not_obj out key (.arr elems) rfl h

end

/-! ## Claims -/

/-- Claim C1: for the fixed demo fixture document returned by `loadDemo`,
the summary-card derivation produces first three cards that are exactly the
numeric fields `areaSqm` (1450), `devAppsLast12m` (712) and
`maxHeightMeters` (235), in this descending-by-value order, labelled via the
prettifier and formatted via the number formatter. -/
theorem summaryCards_demo_top3 :
    (summaryCards (some demoDoc)).take 3 =
      [⟨prettifyKey "lot.areaSqm", formatNumber (.fin 1450), none⟩,
       ⟨prettifyKey "council.devAppsLast12m", formatNumber (.fin 712), none⟩,
       ⟨prettifyKey "zoning.maxHeightMeters", formatNumber (.fin 235), none⟩] ∧
    (summaryCards (some demoDoc)).take 3 =
      [⟨"Lot Area Sqm", "1,450", none⟩,
       ⟨"Council Dev Apps Last12m", "712", none⟩,
       ⟨"Zoning Max Height Meters", "235", none⟩] :=
  ⟨rfl, rfl⟩

/-- Claim C2: for the fixed demo fixture document, `collectSections`
produces exactly an "Overview" section with the single row `address`, then a
"zoning" section with 4 scalar rows, a "lot" section with 4 rows, an
"overlays" section with 2 rows keyed "#1" and "#2", a "nearby" section with
4 rows, and a "council" section with 3 rows, with exactly these titles,
dotted paths and rows. -/
theorem collectSections_demo :
    collectSections (some demoDoc) "" =
      [⟨"Overview", "", [⟨"address", .str "123 George St, Sydney NSW"⟩]⟩,
       ⟨"zoning", "zoning",
         [⟨"code", .str "B8"⟩, ⟨"name", .str "Metropolitan Centre"⟩,
          ⟨"floorSpaceRatio", .num (.fin q10_5)⟩,
          ⟨"maxHeightMeters", .num (.fin 235)⟩]⟩,
       ⟨"lot", "lot",
         [⟨"areaSqm", .num (.fin 1450)⟩, ⟨"frontageM", .num (.fin q28_4)⟩,
          ⟨"depthM", .num (.fin q51_2)⟩, ⟨"corner", .bool true⟩]⟩,
       ⟨"overlays", "overlays",
         [⟨"#1", .obj (.ofList
            [("name", .str "Heritage Conservation Area"), ("applies", .bool true)])⟩,
          ⟨"#2", .obj (.ofList
            [("name", .str "Flood Planning"), ("applies", .bool false)])⟩]⟩,
       ⟨"nearby", "nearby",
         [⟨"schoolsWithin1km", .num (.fin 4)⟩,
          ⟨"trainStationsWithin1km", .num (.fin 1)⟩,
          ⟨"walkScore", .num (.fin 98)⟩, ⟨"transitScore", .num (.fin 100)⟩]⟩,
       ⟨"council", "council",
         [⟨"name", .str "City of Sydney"⟩, ⟨"devAppsLast12m", .num (.fin 712)⟩,
          ⟨"medianProcessingDays", .num (.fin 37)⟩]⟩] := rfl

/-- Claim C3, counterexample: on the well-formed document
`{"a.b": 1, "a": {"b": 2}}` the claimed count identity fails: the sections
hold 2 rows in total, while `flatten` holds only 1 non-array entry (the
nested leaf overwrites the top-level entry at the colliding dotted path
`"a.b"`) and no array is reachable. -/
theorem collectSections_flatten_count_mismatch :
    ¬ (totalRows (collectSections (some collideDoc) "") =
        nonArrayCount (flatten (some collideDoc)) + shallowArrayElems collideDoc) := by
  decide

/-- Claim C3 (amended): for every document whose leaf dotted paths are
pairwise distinct, the total number of rows across all sections returned by
`collectSections` equals the number of non-array entries of `flatten` plus
one row per element of every array reachable without crossing another
array. -/
theorem totalRows_eq_of_nodup_leafPaths (fs : JObj)
    (h : (leafPaths fs "").Nodup) :
    totalRows (collectSections (some fs) "") =
      nonArrayCount (flatten (some fs)) + shallowArrayElems fs := by
  rw [flatten_eq_flatPairs fs h]
  exact collectSections_totalRows fs ""

/-- Claim C3, witness: the demo fixture has pairwise-distinct leaf paths and
satisfies the amended count identity (18 rows = 16 non-array flat entries +
2 array elements). -/
theorem totalRows_eq_of_nodup_leafPaths_witness :
    (leafPaths demoDoc "").Nodup ∧
      totalRows (collectSections (some demoDoc) "") =
        nonArrayCount (flatten (some demoDoc)) + shallowArrayElems demoDoc :=
  ⟨by decide, totalRows_eq_of_nodup_leafPaths demoDoc (by decide)⟩

/-- Claim C4: for every document, the set of dotted paths stored by
`flatten` is exactly the set of leaf paths of the document's tree reachable
without crossing an array boundary, arrays kept as opaque leaves under their
own key. -/
theorem flatten_paths_eq_leafPaths (fs : JObj) (p : String) :
    p ∈ (flatten (some fs)).map Prod.fst ↔ p ∈ leafPaths fs "" := by
  simpa [flatten] using flattenObj_keys_mem fs "" [] p

/-- Claim C5: no entry stored by `flatten` has a plain (non-array) object
value: every stored value is a number, boolean, string, null, undefined, or
an array. -/
theorem flatten_no_plain_object_values (fs : JObj) :
    (flatten (some fs)).all (fun p => !isObjB p.2) = true :=
  flattenObj_no_obj fs "" [] rfl

/-- Claim C6: the value classifier returns `num` for every number (NaN and
the infinities included), `bool` for every boolean, `short` for every
non-empty string of length strictly below 120, and `json` for everything
else: the empty string, strings of length 120 or more, arrays, objects,
null and undefined. (It is a total function by construction.) -/
theorem classifyValue_spec :
    (∀ n : JNum, classifyValue (.num n) = .num) ∧
    (∀ b : Bool, classifyValue (.bool b) = .bool) ∧
    (∀ s : String, 0 < s.length → s.length < 120 →
      classifyValue (.str s) = .short) ∧
    classifyValue (.str "") = .json ∧
    (∀ s : String, 120 ≤ s.length → classifyValue (.str s) = .json) ∧
    (∀ elems : JArr, classifyValue (.arr elems) = .json) ∧
    (∀ fields : JObj, classifyValue (.obj fields) = .json) ∧
    classifyValue .null = .json ∧
    classifyValue .undef = .json := by
  refine ⟨fun _ => rfl, fun _ => rfl, ?_, rfl, ?_, fun _ => rfl, fun _ => rfl,
    rfl, rfl⟩
  · intro s h1 h2
    simp [classifyValue, h1, h2]
  · intro s h
    simp [classifyValue, not_lt.mpr h]

/-- Claim C6, witness: the classifier applied at concrete inputs on the
guarded cases: the two-character string "hi" is short text, a 120-character
string is structured. -/
theorem classifyValue_spec_witness :
    (0 < "hi".length ∧ "hi".length < 120 ∧ classifyValue (.str "hi") = .short) ∧
    (120 ≤ (String.mk (List.replicate 120 'x')).length ∧
      classifyValue (.str (String.mk (List.replicate 120 'x'))) = .json) :=
  ⟨⟨by decide, by decide, classifyValue_spec.2.2.1 "hi" (by decide) (by decide)⟩,
   ⟨by decide, classifyValue_spec.2.2.2.2.1 _ (by decide)⟩⟩

/-- Claim C7: the key prettifier splits on `.` and `_`, inserts a space only
between a lowercase letter immediately followed by an uppercase letter,
capitalizes each token's first character, and joins with single spaces; in
particular `prettifyKey "floorSpaceRatio" = "Floor Space Ratio"` and
`prettifyKey "devAppsLast12m" = "Dev Apps Last12m"` (no space before a digit
run). -/
theorem prettifyKey_examples :
    prettifyKey "floorSpaceRatio" = "Floor Space Ratio" ∧
    prettifyKey "devAppsLast12m" = "Dev Apps Last12m" ∧
    prettifyKey "zoning.maxHeightMeters" = "Zoning Max Height Meters" ∧
    prettifyKey "a_bC.d" = "A B C D" :=
  ⟨rfl, rfl, rfl, rfl⟩

/-- Claim C8: the number formatter returns the literal string representation
of every non-finite number (`"NaN"`, `"Infinity"`, `"-Infinity"`), a locale
thousands-grouped string for every finite number of absolute value at least
1000 (`formatNumber 1234 = "1,234"`), and the plain decimal string otherwise
(`formatNumber 42 = "42"`). -/
theorem formatNumber_spec :
    formatNumber .nan = "NaN" ∧
    formatNumber .posInf = "Infinity" ∧
    formatNumber .negInf = "-Infinity" ∧
    formatNumber (.fin 1234) = "1,234" ∧
    formatNumber (.fin 42) = "42" ∧
    (∀ v : ℚ, 1000 ≤ |v| → formatNumber (.fin v) = groupedFormat v) ∧
    (∀ v : ℚ, |v| < 1000 → formatNumber (.fin v) = jsNumToString (.fin v)) := by
  refine ⟨rfl, rfl, rfl, rfl, rfl, ?_, ?_⟩
  · intro v h
    simp [formatNumber, h]
  · intro v h
    simp [formatNumber, not_le.mpr h]

/-- Claim C8, witness: the formatter's two finite branches applied at the
concrete inputs 2500 (grouped) and 7 (plain). -/
theorem formatNumber_spec_witness :
    (1000 ≤ |(2500 : ℚ)| ∧ formatNumber (.fin 2500) = groupedFormat 2500) ∧
    (|(7 : ℚ)| < 1000 ∧ formatNumber (.fin 7) = jsNumToString (.fin 7)) :=
  ⟨⟨by decide, formatNumber_spec.2.2.2.2.2.1 2500 (by decide)⟩,
   ⟨by decide, formatNumber_spec.2.2.2.2.2.2 7 (by decide)⟩⟩

/-- Claim C9: the Flattener and Sectionizer are total (every Lean embedding
here is a total function on the finite-depth value type), and on an absent
(`undefined`) or `null` document each returns an empty result rather than
failing: `flatten` yields the empty mapping and `collectSections` the empty
section list, for every base path. -/
theorem flatten_collectSections_empty_on_absent :
    flatten none = [] ∧ ∀ basePath : String, collectSections none basePath = [] :=
  ⟨rfl, fun _ => rfl⟩

/-- Claim C10: the summary-card text selection admits the empty string (its
length 0 is below the 80-character cutoff, with no non-emptiness
requirement), so a text card with an empty displayed value is produced, even
though the value classifier files the empty string under `json` rather than
`short`. -/
theorem emptyString_text_card :
    (∀ (flat : List (String × JVal)) (k : String),
      shortTextEntries ((k, .str "") :: flat) = (k, "") :: shortTextEntries flat) ∧
    classifyValue (.str "") = .json ∧
    summaryCards (some (.ofList [("note", .str "")])) =
      [⟨"Note", "", some "text field"⟩] :=
  ⟨fun _ _ => rfl, rfl, rfl⟩
